import Mathlib

/-!
Shallow embedding of the `ewb` browser's layout and display-list engine
(`src/python/browser.py`): the font cache `get_font`, the `Layout` pass
(`token`, `word`, `flush`), and the `Browser` draw/scroll logic.

Coordinates: `cursor_x` and entry `x` are integers (they are sums of
integer measures and the integer margin), while `cursor_y`, baselines and
entry `y` are rationals (the source multiplies integer font metrics by the
float `1.25`, which is exact, so rationals model it faithfully).

Font measurement and metrics come from the external rendering backend
(tkinter); they are modelled as an arbitrary `Metrics` oracle mapping a
font key to integer ascent/descent/linespace and a text-measure function.
-/

/-- Viewport width (source constant `WIDTH = 800`). -/
def WIDTH : Int := 800

/-- Viewport height (source constant `HEIGHT = 600`). -/
def HEIGHT : Int := 600

/-- Horizontal margin / step (source constant `HSTEP = 13`). -/
def HSTEP : Int := 13

/-- Vertical step (source constant `VSTEP = 18`). -/
def VSTEP : Int := 18

/-- Scroll step (source constant `SCROLL_STEP = 100`). -/
def SCROLL_STEP : Int := 100

/-- Font weight (source type `FontWeight = Literal['normal', 'bold']`). -/
inductive FontWeight where
  | normal
  | bold
  deriving DecidableEq

/-- Font slant (source type `FontStyle = Literal['roman', 'italic']`). -/
inductive FontStyle where
  | roman
  | italic
  deriving DecidableEq

/-- A font key (source type `FontDefinition = (int, FontWeight, FontStyle)`);
the layout geometry depends on fonts only through this key. -/
structure FontDef where
  size : Int
  weight : FontWeight
  style : FontStyle
  deriving DecidableEq

/-- The external text-measurement backend (tkinter `Font.measure` and
`Font.metrics`), as an oracle over font keys. -/
structure Metrics where
  ascent : FontDef → Int
  descent : FontDef → Int
  linespace : FontDef → Int
  measure : FontDef → String → Int

/-- Python `max` over a non-empty integer list (the `0` default is never
used at the call sites, which guard for non-emptiness). -/
def listMax : List Int → Int
  | [] => 0
  | x :: xs => xs.foldl max x

/-- Helper for `pySplit`: scan the characters, accumulating the current
word (in reverse); a whitespace character closes the pending word, and
empty pieces are dropped. -/
def pySplitAux : List Char → List Char → List String
  | [], acc => if acc = [] then [] else [String.mk acc.reverse]
  | c :: cs, acc =>
    if c.isWhitespace then
      (if acc = [] then [] else [String.mk acc.reverse]) ++ pySplitAux cs []
    else pySplitAux cs (c :: acc)

/-- Python `str.split()`: split on whitespace runs, dropping empty pieces. -/
def pySplit (s : String) : List String :=
  pySplitAux s.data []

/-- First-match association-list lookup, modelling Python dict access. -/
def dictFind {α : Type} : List (FontDef × α) → FontDef → Option α
  | [], _ => none
  | (k, v) :: rest, key => if key = k then some v else dictFind rest key

/-- State of the process-wide font cache: the `FONTS` dict maps a font key
to the pair (font resource, label resource); resources are modelled by
identifiers drawn from the fresh counter `nextRes`, so each construction
yields a new resource. -/
structure FontsState where
  FONTS : List (FontDef × (Nat × Nat))
  nextRes : Nat
  deriving DecidableEq

/-- `get_font(size, weight, style)` (browser.py lines 36-45): on a cache
miss construct a font and a label and store them under the key; return the
font component of the cached pair. -/
def get_font (st : FontsState) (size : Int) (weight : FontWeight) (style : FontStyle) :
    FontsState × Nat :=
  let key : FontDef := ⟨size, weight, style⟩
  let st1 :=
    if (dictFind st.FONTS key).isNone then
      let font := st.nextRes
      let label := st.nextRes + 1
      { FONTS := (key, (font, label)) :: st.FONTS, nextRes := st.nextRes + 2 }
    else st
  (st1, ((dictFind st1.FONTS key).getD (0, 0)).1)

/-- A pending word on the current line: `(cursor_x, word, font)` as
appended by `Layout.word`. -/
structure WordBox where
  x : Int
  text : String
  font : FontDef
  deriving DecidableEq

/-- A display-list entry `(x, y, word, font)` (source type `XYTextFont`). -/
structure DisplayEntry where
  x : Int
  y : ℚ
  text : String
  font : FontDef
  deriving DecidableEq

/-- The data carried by a parsed node as the layout consumes it:
`token.data.tag_name` and `token.data.attributes` (text nodes expose their
literal content under the attribute key "content"). -/
structure NodeData where
  tag_name : String
  attributes : List (String × String)
  deriving DecidableEq

/-- A flattened token (one `ewb.PyNode` from `root.get_all_nodes()`). -/
structure PyNode where
  data : NodeData
  deriving DecidableEq

/-- The mutable state of the `Layout` class (browser.py lines 47-60). -/
structure Layout where
  display_list : List DisplayEntry
  cursor_x : Int
  cursor_y : ℚ
  weight : FontWeight
  style : FontStyle
  size : Int
  line : List WordBox
  deriving DecidableEq

/-- The initial layout state set up by `Layout.__init__` before the token
loop: empty display list, cursors at the margins, style 12/normal/roman,
empty line buffer. -/
def Layout.initState : Layout :=
  { display_list := []
    cursor_x := HSTEP
    cursor_y := (VSTEP : ℚ)
    weight := FontWeight.normal
    style := FontStyle.roman
    size := 12
    line := [] }

/-- `Layout.flush` (browser.py lines 110-126): no-op on an empty line;
otherwise emit every pending word at `baseline - ascent` where
`baseline = cursor_y + 1.25 * max_ascent`, then advance `cursor_y` to
`baseline + 1.25 * max_descent`, reset `cursor_x`, and clear the line. -/
def Layout.flush (m : Metrics) (s : Layout) : Layout :=
  if s.line = [] then s
  else
    let max_ascent := listMax (s.line.map fun wb => m.ascent wb.font)
    let baseline : ℚ := s.cursor_y + (5 / 4 : ℚ) * (max_ascent : ℚ)
    let entries := s.line.map fun wb =>
      { x := wb.x, y := baseline - (m.ascent wb.font : ℚ), text := wb.text, font := wb.font :
        DisplayEntry }
    let max_descent := listMax (s.line.map fun wb => m.descent wb.font)
    { s with
        display_list := s.display_list ++ entries
        cursor_y := baseline + (5 / 4 : ℚ) * (max_descent : ℚ)
        cursor_x := HSTEP
        line := [] }

/-- `Layout.word` (browser.py lines 102-108): measure the word with the
font of the current style, flush first when it would overflow
`WIDTH - HSTEP`, then append it to the line at the current `cursor_x` and
advance `cursor_x` by the word width plus a measured space. -/
def Layout.word (m : Metrics) (s : Layout) (w : String) : Layout :=
  let font : FontDef := ⟨s.size, s.weight, s.style⟩
  let wdt := m.measure font w
  let s1 := if s.cursor_x + wdt > WIDTH - HSTEP then Layout.flush m s else s
  { s1 with
      line := s1.line ++ [⟨s1.cursor_x, w, font⟩]
      cursor_x := s1.cursor_x + wdt + m.measure font " " }

/-- `Layout.token` (browser.py lines 67-75): for a `text` token split the
content attribute into words and feed each to `Layout.word`; every token
step ends with an unconditional `flush` (all tag-specific style handling
in the source is commented out). -/
def Layout.token (m : Metrics) (s : Layout) (tok : PyNode) : Layout :=
  let token_type := tok.data.tag_name
  let token_content := (List.lookup "content" tok.data.attributes).getD ""
  let s1 :=
    if token_type = "text" then (pySplit token_content).foldl (Layout.word m) s
    else s
  Layout.flush m s1

/-- `Layout.__init__`'s token loop (browser.py lines 58-65): fold
`Layout.token` over the flattened token sequence starting from the initial
state; the trailing `self.flush()` in the source is commented out. -/
def Layout.init (m : Metrics) (tokens : List PyNode) : Layout :=
  tokens.foldl (Layout.token m) Layout.initState

/-- The words a single token feeds to the line composer: the
whitespace-split content for a `text` token, nothing otherwise. -/
def tokenWords (tok : PyNode) : List String :=
  if tok.data.tag_name = "text" then
    pySplit ((List.lookup "content" tok.data.attributes).getD "")
  else []

/-- All words fed by a token sequence, in order. -/
def allWords (tokens : List PyNode) : List String :=
  (tokens.map tokenWords).flatten

/-- The texts held by a layout state: display-list texts followed by the
pending line's texts (used to state conservation of placed words). -/
def lineTexts (s : Layout) : List String :=
  s.display_list.map DisplayEntry.text ++ s.line.map WordBox.text

/-- Per-entry culling and draw-command generation from `Browser.draw`
(browser.py lines 149-154): skip the entry when it lies below or above the
visible band, otherwise issue a draw command at `(x, y - scroll)`. -/
def drawEntry (m : Metrics) (scroll : Int) (e : DisplayEntry) :
    Option (Int × ℚ × String × FontDef) :=
  if e.y > ((scroll + HEIGHT : Int) : ℚ) then none
  else if e.y + (m.linespace e.font : ℚ) < (scroll : ℚ) then none
  else some (e.x, e.y - (scroll : ℚ), e.text, e.font)

/-- The state of the `Browser` class that the draw/scroll logic touches:
the scroll offset and the display list produced by `load`. -/
structure Browser where
  scroll : Int
  display_list : List DisplayEntry
  deriving DecidableEq

/-- `Browser.draw` (browser.py lines 149-154) as the list of issued draw
commands: the display list filtered and positioned by `drawEntry`. -/
def Browser.draw (m : Metrics) (b : Browser) : List (Int × ℚ × String × FontDef) :=
  b.display_list.filterMap (drawEntry m b.scroll)

/-- `Browser.scrolldown` (browser.py lines 156-158): add `SCROLL_STEP` to
the scroll offset (the subsequent redraw is `Browser.draw` on the new
state). -/
def Browser.scrolldown (b : Browser) : Browser :=
  { b with scroll := b.scroll + SCROLL_STEP }

/-- A concrete measurement oracle used for witnesses and counterexamples:
ascent is the font size, descent is 3, linespace their sum, and a word
measures its length times the font size. -/
def mTest : Metrics :=
  { ascent := fun f => f.size
    descent := fun _ => 3
    linespace := fun f => f.size + 3
    measure := fun f s => (s.length : Int) * f.size }

/-! ### Basic lemmas about `flush` and `word` -/

/-- `flush` always leaves an empty line buffer. -/
@[simp] theorem Layout.flush_line (m : Metrics) (s : Layout) :
    (Layout.flush m s).line = [] := by
  unfold Layout.flush
  split
  · assumption
  · rfl

@[simp] theorem Layout.flush_size (m : Metrics) (s : Layout) :
    (Layout.flush m s).size = s.size := by
  unfold Layout.flush
  split <;> rfl

@[simp] theorem Layout.flush_weight (m : Metrics) (s : Layout) :
    (Layout.flush m s).weight = s.weight := by
  unfold Layout.flush
  split <;> rfl

@[simp] theorem Layout.flush_style (m : Metrics) (s : Layout) :
    (Layout.flush m s).style = s.style := by
  unfold Layout.flush
  split <;> rfl

@[simp] theorem Layout.word_size (m : Metrics) (s : Layout) (w : String) :
    (Layout.word m s w).size = s.size := by
  unfold Layout.word
  dsimp only
  split <;> simp

@[simp] theorem Layout.word_weight (m : Metrics) (s : Layout) (w : String) :
    (Layout.word m s w).weight = s.weight := by
  unfold Layout.word
  dsimp only
  split <;> simp

@[simp] theorem Layout.word_style (m : Metrics) (s : Layout) (w : String) :
    (Layout.word m s w).style = s.style := by
  unfold Layout.word
  dsimp only
  split <;> simp

/-! ### C2, C4, C9 -/

/-- C2: a word starts a new line (the current line is flushed before
placement) iff `cursor_x + measure(word) > WIDTH - HSTEP` at the pre-wrap
`cursor_x`; in that case the word becomes the first (sole) word of the new
line, otherwise it is appended to the current line; in both cases the
whole word is placed as one box (never split or truncated), even when it
is wider than the full viewport. -/
theorem word_wrap_correct (m : Metrics) (s : Layout) (w : String) :
    ((Layout.word m s w).line =
      if s.cursor_x + m.measure ⟨s.size, s.weight, s.style⟩ w > WIDTH - HSTEP
      then [⟨(Layout.flush m s).cursor_x, w, ⟨s.size, s.weight, s.style⟩⟩]
      else s.line ++ [⟨s.cursor_x, w, ⟨s.size, s.weight, s.style⟩⟩])
    ∧ w ∈ (Layout.word m s w).line.map WordBox.text := by
  have hline : (Layout.word m s w).line =
      if s.cursor_x + m.measure ⟨s.size, s.weight, s.style⟩ w > WIDTH - HSTEP
      then [⟨(Layout.flush m s).cursor_x, w, ⟨s.size, s.weight, s.style⟩⟩]
      else s.line ++ [⟨s.cursor_x, w, ⟨s.size, s.weight, s.style⟩⟩] := by
    unfold Layout.word
    dsimp only
    split
    · simp [Layout.flush_line]
    · rfl
  refine ⟨hline, ?_⟩
  rw [hline]
  split <;> simp

/-- C4: a display-list entry is drawn (at `(x, y - scroll)`) iff
`scroll ≤ y + linespace` and `y ≤ scroll + HEIGHT`; entries failing either
bound are skipped (`none`), with no layout recomputation. -/
theorem drawEntry_culling (m : Metrics) (scroll : Int) (e : DisplayEntry) :
    drawEntry m scroll e =
      if (scroll : ℚ) ≤ e.y + (m.linespace e.font : ℚ)
          ∧ e.y ≤ ((scroll + HEIGHT : Int) : ℚ)
      then some (e.x, e.y - (scroll : ℚ), e.text, e.font)
      else none := by
  unfold drawEntry
  by_cases h1 : e.y > ((scroll + HEIGHT : Int) : ℚ)
  · rw [if_pos h1, if_neg]
    rintro ⟨-, hB⟩
    linarith
  · rw [if_neg h1]
    by_cases h2 : e.y + (m.linespace e.font : ℚ) < (scroll : ℚ)
    · rw [if_pos h2, if_neg]
      rintro ⟨hA, -⟩
      linarith
    · rw [if_neg h2, if_pos ⟨by linarith, by linarith⟩]

/-- C9: a scroll-down event only adds `SCROLL_STEP` to the scroll offset;
the display list is element-wise unchanged and the subsequent redraw is
pure culling of that same display list at the new offset (no layout
recomputation). -/
theorem scrolldown_pure (m : Metrics) (b : Browser) :
    (Browser.scrolldown b).display_list = b.display_list
    ∧ (Browser.scrolldown b).scroll = b.scroll + SCROLL_STEP
    ∧ Browser.draw m (Browser.scrolldown b)
        = b.display_list.filterMap (drawEntry m (b.scroll + SCROLL_STEP)) :=
  ⟨rfl, rfl, rfl⟩

/-! ### Style preservation (C1) -/

@[simp] theorem Layout.foldl_word_size (m : Metrics) (ws : List String) (s : Layout) :
    (ws.foldl (Layout.word m) s).size = s.size := by
  induction ws generalizing s with
  | nil => rfl
  | cons w ws ih => rw [List.foldl_cons, ih, Layout.word_size]

@[simp] theorem Layout.foldl_word_weight (m : Metrics) (ws : List String) (s : Layout) :
    (ws.foldl (Layout.word m) s).weight = s.weight := by
  induction ws generalizing s with
  | nil => rfl
  | cons w ws ih => rw [List.foldl_cons, ih, Layout.word_weight]

@[simp] theorem Layout.foldl_word_styleField (m : Metrics) (ws : List String) (s : Layout) :
    (ws.foldl (Layout.word m) s).style = s.style := by
  induction ws generalizing s with
  | nil => rfl
  | cons w ws ih => rw [List.foldl_cons, ih, Layout.word_style]

/-- C1 (corrected): the layout pass never changes the running style: for
every token, whatever its tag (including "i", "b", "small", "big", "h1"),
the token step leaves `size`, `weight` and `style` unchanged — all the
tag-specific style rules in the source are commented out. -/
theorem token_style_unchanged (m : Metrics) (s : Layout) (tok : PyNode) :
    (Layout.token m s tok).size = s.size
    ∧ (Layout.token m s tok).weight = s.weight
    ∧ (Layout.token m s tok).style = s.style := by
  unfold Layout.token
  dsimp only
  split <;> simp

/-- C1 counterexample: processing a token with tag "i" from the initial
state leaves the style `roman`; it does not set it to `italic` as the
claim states. -/
theorem token_i_style_cex :
    (Layout.token mTest Layout.initState ⟨⟨"i", []⟩⟩).style ≠ FontStyle.italic := by
  decide

/-! ### Paragraph / break tokens (C3) -/

/-- C3 (corrected): a "p" token and a "br" token are treated alike: the
token step is exactly a flush of the current line, with no extra
paragraph gap (no additional `VSTEP` advance of the vertical cursor). -/
theorem token_p_br_flush (m : Metrics) (s : Layout) (attrs : List (String × String)) :
    Layout.token m s ⟨⟨"p", attrs⟩⟩ = Layout.flush m s
    ∧ Layout.token m s ⟨⟨"br", attrs⟩⟩ = Layout.flush m s := by
  constructor <;> (unfold Layout.token; simp)

/-- C3 counterexample: with the single word "hi" pending on the line, a
"p" token leaves the vertical cursor at the flush position; it does not
advance it by the extra `VSTEP` the claim requires. -/
theorem token_p_no_gap_cex :
    (Layout.token mTest (Layout.word mTest Layout.initState "hi") ⟨⟨"p", []⟩⟩).cursor_y
      ≠ (Layout.flush mTest (Layout.word mTest Layout.initState "hi")).cursor_y
          + (VSTEP : ℚ) := by
  norm_num +decide [Layout.token, Layout.word, Layout.flush, Layout.initState, mTest,
    listMax, HSTEP, VSTEP, WIDTH]

/-! ### Flush baseline alignment (C5) -/

theorem Layout.flush_of_empty (m : Metrics) (s : Layout) (h : s.line = []) :
    Layout.flush m s = s := by
  unfold Layout.flush
  rw [if_pos h]

theorem Layout.flush_cursor_x_of_ne (m : Metrics) (s : Layout) (h : s.line ≠ []) :
    (Layout.flush m s).cursor_x = HSTEP := by
  unfold Layout.flush
  rw [if_neg h]

theorem Layout.word_line_ne (m : Metrics) (s : Layout) (w : String) :
    (Layout.word m s w).line ≠ [] := by
  unfold Layout.word
  dsimp only
  simp

/-- C5: flushing a non-empty line emits every pending word at
`baseline - its own font's ascent` where
`baseline = cursor_y + 1.25 * max_ascent`, so `entry.y + font.ascent`
equals the shared baseline for every emitted entry, and afterwards
`cursor_y = baseline + 1.25 * max_descent`. -/
theorem flush_shared_baseline (m : Metrics) (s : Layout) (h : s.line ≠ []) :
    ((Layout.flush m s).display_list
      = s.display_list ++ s.line.map (fun wb =>
          ⟨wb.x,
            s.cursor_y + (5 / 4 : ℚ) * (listMax (s.line.map fun b => m.ascent b.font) : ℚ)
              - (m.ascent wb.font : ℚ),
            wb.text, wb.font⟩))
    ∧ (∀ e ∈ (Layout.flush m s).display_list.drop s.display_list.length,
        e.y + (m.ascent e.font : ℚ)
          = s.cursor_y + (5 / 4 : ℚ) * (listMax (s.line.map fun b => m.ascent b.font) : ℚ))
    ∧ (Layout.flush m s).cursor_y
      = s.cursor_y + (5 / 4 : ℚ) * (listMax (s.line.map fun b => m.ascent b.font) : ℚ)
        + (5 / 4 : ℚ) * (listMax (s.line.map fun b => m.descent b.font) : ℚ) := by
  have hdl : (Layout.flush m s).display_list
      = s.display_list ++ s.line.map (fun wb =>
          ⟨wb.x,
            s.cursor_y + (5 / 4 : ℚ) * (listMax (s.line.map fun b => m.ascent b.font) : ℚ)
              - (m.ascent wb.font : ℚ),
            wb.text, wb.font⟩) := by
    unfold Layout.flush
    rw [if_neg h]
  refine ⟨hdl, ?_, ?_⟩
  · intro e he
    rw [hdl, List.drop_left] at he
    obtain ⟨wb, -, rfl⟩ := List.mem_map.mp he
    ring
  · unfold Layout.flush
    rw [if_neg h]

/-- Witness for C5 at a concrete input: a line holding the single word
"hi" in the 12/normal/roman font (ascent 12, descent 3 under `mTest`)
flushes to `cursor_y = 18 + 1.25 * 12 + 1.25 * 3`. -/
theorem flush_shared_baseline_w :
    (Layout.word mTest Layout.initState "hi").line ≠ []
    ∧ (Layout.flush mTest (Layout.word mTest Layout.initState "hi")).cursor_y
        = 18 + (5 / 4 : ℚ) * 12 + (5 / 4 : ℚ) * 3 := by
  have h := flush_shared_baseline mTest (Layout.word mTest Layout.initState "hi") (by decide)
  refine ⟨by decide, ?_⟩
  rw [h.2.2]
  norm_num +decide [Layout.word, Layout.initState, mTest, listMax, HSTEP, VSTEP, WIDTH]

/-! ### Reachable states and the flush invariant (C6) -/

/-- The layout states reachable from the initial state by the operations
of the layout pass (`word`, `flush`, and whole token steps). -/
inductive LayoutReachable (m : Metrics) : Layout → Prop where
  | initial : LayoutReachable m Layout.initState
  | word_step (s : Layout) (w : String) :
      LayoutReachable m s → LayoutReachable m (Layout.word m s w)
  | flush_step (s : Layout) :
      LayoutReachable m s → LayoutReachable m (Layout.flush m s)
  | token_step (s : Layout) (tok : PyNode) :
      LayoutReachable m s → LayoutReachable m (Layout.token m s tok)

theorem Layout.foldl_word_inv (m : Metrics) (ws : List String) (s : Layout)
    (h : s.line = [] → s.cursor_x = HSTEP) :
    (ws.foldl (Layout.word m) s).line = [] → (ws.foldl (Layout.word m) s).cursor_x = HSTEP := by
  induction ws generalizing s with
  | nil => exact h
  | cons w ws ih =>
    rw [List.foldl_cons]
    exact ih _ fun hl => absurd hl (Layout.word_line_ne m s w)

theorem Layout.flush_cursor_x_of_inv (m : Metrics) (s : Layout)
    (h : s.line = [] → s.cursor_x = HSTEP) : (Layout.flush m s).cursor_x = HSTEP := by
  by_cases he : s.line = []
  · rw [Layout.flush_of_empty m s he]
    exact h he
  · exact Layout.flush_cursor_x_of_ne m s he

/-- In every reachable state, an empty line buffer implies the cursor sits
at the left margin. -/
theorem Layout.reachable_inv (m : Metrics) (s : Layout) (h : LayoutReachable m s) :
    s.line = [] → s.cursor_x = HSTEP := by
  induction h with
  | initial => intro _; rfl
  | word_step s w _ _ => exact fun hl => absurd hl (Layout.word_line_ne m s w)
  | flush_step s _ ih => exact fun _ => Layout.flush_cursor_x_of_inv m s ih
  | token_step s tok _ ih =>
    unfold Layout.token
    dsimp only
    refine fun _ => Layout.flush_cursor_x_of_inv m _ ?_
    split
    · exact Layout.foldl_word_inv m _ s ih
    · exact ih

/-- C6: after any call to `flush` in any reachable state of the layout
pass — whether the flush was a no-op on an empty line or finalized a
non-empty one — the line buffer is empty and `cursor_x` equals the left
margin `HSTEP`. -/
theorem flush_resets (m : Metrics) (s : Layout) (h : LayoutReachable m s) :
    (Layout.flush m s).line = [] ∧ (Layout.flush m s).cursor_x = HSTEP :=
  ⟨Layout.flush_line m s, Layout.flush_cursor_x_of_inv m s (Layout.reachable_inv m s h)⟩

/-- Witness for C6 at a concrete input: flushing the (reachable) initial
state leaves an empty line and the cursor at `HSTEP`. -/
theorem flush_resets_w :
    (Layout.flush mTest Layout.initState).line = []
    ∧ (Layout.flush mTest Layout.initState).cursor_x = HSTEP :=
  flush_resets mTest Layout.initState LayoutReachable.initial

/-! ### Font cache (C7) -/

/-- C7: `get_font` is a lazy, never-evicting memo table. A first call for
a key constructs a fresh font-and-label pair (fresh resource identifiers)
and stores it; a call for a cached key returns the cached font handle with
the state untouched (no construction); no existing entry is ever evicted
or overwritten by any call; and calling twice with the same key is
idempotent and yields the same handle. -/
theorem get_font_memoized (st : FontsState) (size : Int) (w : FontWeight) (sl : FontStyle) :
    (dictFind st.FONTS ⟨size, w, sl⟩ = none →
        (get_font st size w sl).1.FONTS
          = (⟨size, w, sl⟩, (st.nextRes, st.nextRes + 1)) :: st.FONTS
        ∧ (get_font st size w sl).1.nextRes = st.nextRes + 2
        ∧ (get_font st size w sl).2 = st.nextRes)
    ∧ (∀ fl, dictFind st.FONTS ⟨size, w, sl⟩ = some fl →
        get_font st size w sl = (st, fl.1))
    ∧ (∀ k v, dictFind st.FONTS k = some v →
        dictFind (get_font st size w sl).1.FONTS k = some v)
    ∧ get_font (get_font st size w sl).1 size w sl
        = ((get_font st size w sl).1, (get_font st size w sl).2) := by
  refine ⟨?_, ?_, ?_, ?_⟩
  · intro h
    simp [get_font, h, dictFind]
  · intro fl h
    simp [get_font, h]
  · intro k v h
    by_cases hk : dictFind st.FONTS ⟨size, w, sl⟩ = none
    · have hne : k ≠ ⟨size, w, sl⟩ := by
        rintro rfl
        rw [h] at hk
        exact Option.some_ne_none v hk
      simp [get_font, hk, dictFind, hne, h]
    · rcases Option.ne_none_iff_exists'.mp hk with ⟨fl, hfl⟩
      simp [get_font, hfl, h]
  · by_cases hk : dictFind st.FONTS ⟨size, w, sl⟩ = none
    · simp [get_font, hk, dictFind]
    · rcases Option.ne_none_iff_exists'.mp hk with ⟨fl, hfl⟩
      simp [get_font, hfl]

/-- Witness for C7 at a concrete input: from the empty cache, the first
request for (12, normal, roman) returns the fresh handle 0 and a repeated
request returns the same cached handle. -/
theorem get_font_memoized_w :
    (get_font ⟨[], 0⟩ 12 FontWeight.normal FontStyle.roman).2 = 0
    ∧ (get_font (get_font ⟨[], 0⟩ 12 FontWeight.normal FontStyle.roman).1
        12 FontWeight.normal FontStyle.roman).2 = 0 := by
  have h := get_font_memoized ⟨[], 0⟩ 12 FontWeight.normal FontStyle.roman
  refine ⟨(h.1 rfl).2.2, ?_⟩
  rw [h.2.2.2]
  exact (h.1 rfl).2.2

/-! ### Conservation of placed words (C8) -/

theorem Layout.lineTexts_box (s1 : Layout) (b : WordBox) (cx : Int) :
    lineTexts { s1 with line := s1.line ++ [b], cursor_x := cx } = lineTexts s1 ++ [b.text] := by
  unfold lineTexts
  dsimp only
  simp

theorem Layout.flush_texts (m : Metrics) (s : Layout) :
    lineTexts (Layout.flush m s) = lineTexts s := by
  by_cases he : s.line = []
  · rw [Layout.flush_of_empty m s he]
  · unfold lineTexts Layout.flush
    rw [if_neg he]
    dsimp only
    simp [List.map_map]

theorem Layout.word_texts (m : Metrics) (s : Layout) (w : String) :
    lineTexts (Layout.word m s w) = lineTexts s ++ [w] := by
  unfold Layout.word
  dsimp only
  split
  · rw [Layout.lineTexts_box, Layout.flush_texts]
  · rw [Layout.lineTexts_box]

theorem Layout.foldl_word_texts (m : Metrics) (ws : List String) (s : Layout) :
    lineTexts (ws.foldl (Layout.word m) s) = lineTexts s ++ ws := by
  induction ws generalizing s with
  | nil => simp
  | cons w ws ih => rw [List.foldl_cons, ih, Layout.word_texts]; simp

theorem Layout.token_texts (m : Metrics) (s : Layout) (tok : PyNode) :
    lineTexts (Layout.token m s tok) = lineTexts s ++ tokenWords tok := by
  unfold Layout.token tokenWords
  dsimp only
  rw [Layout.flush_texts]
  by_cases ht : tok.data.tag_name = "text"
  · rw [if_pos ht, if_pos ht, Layout.foldl_word_texts]
  · rw [if_neg ht, if_neg ht, List.append_nil]

theorem Layout.token_line (m : Metrics) (s : Layout) (tok : PyNode) :
    (Layout.token m s tok).line = [] :=
  Layout.flush_line m _

theorem Layout.foldl_token_line (m : Metrics) (ts : List PyNode) (s : Layout)
    (h : s.line = []) : (ts.foldl (Layout.token m) s).line = [] := by
  induction ts generalizing s with
  | nil => exact h
  | cons t ts ih => rw [List.foldl_cons]; exact ih _ (Layout.token_line m s t)

theorem Layout.foldl_token_texts (m : Metrics) (ts : List PyNode) (s : Layout) :
    lineTexts (ts.foldl (Layout.token m) s) = lineTexts s ++ allWords ts := by
  induction ts generalizing s with
  | nil => simp [allWords]
  | cons t ts ih =>
    rw [List.foldl_cons, ih, Layout.token_texts]
    simp [allWords]

/-- C8: after the layout pass processes any token sequence, the line
buffer is empty (no unflushed trailing line) and the returned display list
holds, in order, exactly the words the line composer placed: its entry
texts are all the words of the token sequence. -/
theorem layout_no_trailing_line (m : Metrics) (tokens : List PyNode) :
    (Layout.init m tokens).line = []
    ∧ (Layout.init m tokens).display_list.map DisplayEntry.text = allWords tokens := by
  have hline : (Layout.init m tokens).line = [] :=
    Layout.foldl_token_line m tokens Layout.initState rfl
  refine ⟨hline, ?_⟩
  have h := Layout.foldl_token_texts m tokens Layout.initState
  unfold Layout.init at hline ⊢
  unfold lineTexts at h
  rw [hline] at h
  simpa [Layout.initState] using h

/-! ### Per-token isolation of lines (C10) -/

theorem Layout.flush_extra (m : Metrics) (s : Layout) :
    ∃ extra, (Layout.flush m s).display_list = s.display_list ++ extra
      ∧ ∀ e ∈ extra, e.text ∈ s.line.map WordBox.text := by
  by_cases he : s.line = []
  · refine ⟨[], ?_, by simp⟩
    rw [Layout.flush_of_empty m s he, List.append_nil]
  · refine ⟨s.line.map (fun wb =>
      ⟨wb.x,
        s.cursor_y + (5 / 4 : ℚ) * (listMax (s.line.map fun b => m.ascent b.font) : ℚ)
          - (m.ascent wb.font : ℚ),
        wb.text, wb.font⟩), ?_, ?_⟩
    · unfold Layout.flush
      rw [if_neg he]
    · intro e hme
      obtain ⟨wb, hwb, rfl⟩ := List.mem_map.mp hme
      exact List.mem_map.mpr ⟨wb, hwb, rfl⟩

theorem Layout.word_step_bound (m : Metrics) (s : Layout) (w : String)
    (target : List String) (hw : w ∈ target)
    (hline : ∀ t ∈ s.line.map WordBox.text, t ∈ target) :
    (∃ extra, (Layout.word m s w).display_list = s.display_list ++ extra
      ∧ ∀ e ∈ extra, e.text ∈ target)
    ∧ ∀ t ∈ (Layout.word m s w).line.map WordBox.text, t ∈ target := by
  unfold Layout.word
  dsimp only
  split
  · obtain ⟨extra, he, hm⟩ := Layout.flush_extra m s
    refine ⟨⟨extra, he, fun e hme => hline _ (hm e hme)⟩, ?_⟩
    intro t ht
    simp [Layout.flush_line] at ht
    exact ht ▸ hw
  · refine ⟨⟨[], by simp, by simp⟩, ?_⟩
    intro t ht
    simp at ht
    rcases ht with ht | ht
    · exact hline t (List.mem_map.mpr (by obtain ⟨b, hb, rfl⟩ := ht; exact ⟨b, hb, rfl⟩))
    · exact ht ▸ hw

theorem Layout.foldl_word_bound (m : Metrics) (ws : List String) (s : Layout)
    (target : List String) (hws : ∀ w ∈ ws, w ∈ target)
    (hline : ∀ t ∈ s.line.map WordBox.text, t ∈ target) :
    (∃ extra, (ws.foldl (Layout.word m) s).display_list = s.display_list ++ extra
      ∧ ∀ e ∈ extra, e.text ∈ target)
    ∧ ∀ t ∈ (ws.foldl (Layout.word m) s).line.map WordBox.text, t ∈ target := by
  induction ws generalizing s with
  | nil => exact ⟨⟨[], by simp, by simp⟩, hline⟩
  | cons w ws ih =>
    rw [List.foldl_cons]
    have hstep := Layout.word_step_bound m s w target (hws w (by simp)) hline
    obtain ⟨⟨extra1, he1, hm1⟩, hline1⟩ := hstep
    have hrest := ih (Layout.word m s w) (fun v hv => hws v (by simp [hv])) hline1
    obtain ⟨⟨extra2, he2, hm2⟩, hline2⟩ := hrest
    refine ⟨⟨extra1 ++ extra2, ?_, ?_⟩, hline2⟩
    · rw [he2, he1, List.append_assoc]
    · intro e hme
      rcases List.mem_append.mp hme with h1 | h2
      · exact hm1 e h1
      · exact hm2 e h2

/-- C10: every token step ends with an unconditional flush, so the line
buffer is empty after processing any token; consequently, when a token is
processed from an empty line (as always happens between tokens), every
display-list entry it appends carries one of that token's own words —
words from two distinct text tokens never share a flushed line. -/
theorem token_isolated (m : Metrics) (s : Layout) (tok : PyNode) :
    (Layout.token m s tok).line = []
    ∧ (s.line = [] →
        ∃ extra, (Layout.token m s tok).display_list = s.display_list ++ extra
          ∧ ∀ e ∈ extra, e.text ∈ tokenWords tok) := by
  refine ⟨Layout.token_line m s tok, ?_⟩
  intro hl
  unfold Layout.token
  dsimp only
  by_cases ht : tok.data.tag_name = "text"
  · rw [if_pos ht]
    have hfold := Layout.foldl_word_bound m
      (pySplit ((List.lookup "content" tok.data.attributes).getD ""))
      s (tokenWords tok)
      (by unfold tokenWords; rw [if_pos ht]; exact fun w hw => hw)
      (by rw [hl]; simp)
    obtain ⟨⟨extra1, he1, hm1⟩, hline1⟩ := hfold
    obtain ⟨extra2, he2, hm2⟩ := Layout.flush_extra m
      ((pySplit ((List.lookup "content" tok.data.attributes).getD "")).foldl (Layout.word m) s)
    refine ⟨extra1 ++ extra2, ?_, ?_⟩
    · rw [he2, he1, List.append_assoc]
    · intro e hme
      rcases List.mem_append.mp hme with h1 | h2
      · exact hm1 e h1
      · exact hline1 _ (hm2 e h2)
  · rw [if_neg ht]
    obtain ⟨extra, he, hm⟩ := Layout.flush_extra m s
    refine ⟨extra, he, fun e hme => ?_⟩
    have hmem := hm e hme
    rw [hl] at hmem
    simp at hmem

/-- Witness for C10 at a concrete input: a text token with content
"hi there" processed from the (empty-line) initial state leaves an empty
line and appends only entries whose text is one of its own words. -/
theorem token_isolated_w :
    (Layout.token mTest Layout.initState ⟨⟨"text", [("content", "hi there")]⟩⟩).line = []
    ∧ ∃ extra,
        (Layout.token mTest Layout.initState ⟨⟨"text", [("content", "hi there")]⟩⟩).display_list
          = Layout.initState.display_list ++ extra
        ∧ ∀ e ∈ extra, e.text ∈ tokenWords ⟨⟨"text", [("content", "hi there")]⟩⟩ := by
  have h := token_isolated mTest Layout.initState ⟨⟨"text", [("content", "hi there")]⟩⟩
  exact ⟨h.1, h.2 rfl⟩
